import Mathlib

/-!
Verification of the statistics function set in src/stats.h (namespace dsp):
mean, var (variance) and std (standard deviation) over a sequence of samples,
each in three call shapes (iterator range, vector, Signal buffer).

Samples are modelled as rational numbers (exact arithmetic in place of the
floating-point sample type T), an iterator range [begin, end) as the list of
elements it traverses, and a vector likewise as its list of elements.
The square root in std is the real nonnegative square root, so std returns
a real number.
-/

namespace dsp

/-- Modelled from the spec: the type dsp::Signal of Signal.h is not part of
the sources; the spec describes it as a signal-buffer abstraction providing
read-only forward iteration (begin/end) over its samples, so it is modelled
as the ordered list of samples that iteration yields. -/
structure Signal where
  samples : List ℚ

/-- Range form of mean (stats.h lines 16-21): accumulate the sum from T(0)
over [begin, end) and divide by std::distance(begin, end), the element count
(a signed integer converted to the sample type). -/
def mean (xs : List ℚ) : ℚ :=
  let sum := xs.foldl (fun acc x => acc + x) 0
  sum / ((xs.length : ℤ) : ℚ)

/-- Vector form of mean (stats.h lines 26-30): delegates to the range form
on x.begin(), x.end(). -/
def meanVec (x : List ℚ) : ℚ :=
  mean x

/-- Signal form of mean (stats.h lines 36-40): delegates to the range form
on x.begin(), x.end(). -/
def meanSignal (x : Signal) : ℚ :=
  mean x.samples

/-- The weighting enumeration (stats.h line 43): sample or population. -/
inductive weight
  | sample
  | population
deriving DecidableEq

/-- Range form of var (stats.h lines 52-62): first pass computes the mean mu,
second pass computes the sum of std::pow(x - mu, 2) via transform_reduce from
T(0); the sample branch divides by std::distance(begin, end) - 1 (computed in
the signed integers, then converted), the population branch divides by
std::distance(begin, end) cast to the sample type. -/
def var (xs : List ℚ) (w : weight) : ℚ :=
  let mu := mean xs
  let sum := xs.foldl (fun acc x => acc + (x - mu) ^ 2) 0
  if w = weight.sample then
    sum / (((xs.length : ℤ) - 1 : ℤ) : ℚ)
  else
    sum / ((xs.length : ℤ) : ℚ)

/-- Vector form of var (stats.h lines 69-73): delegates to the range form. -/
def varVec (x : List ℚ) (w : weight) : ℚ :=
  var x w

/-- Signal form of var (stats.h lines 81-85): delegates to the range form. -/
def varSignal (x : Signal) (w : weight) : ℚ :=
  var x.samples w

/-- Range form of std (stats.h lines 94-98): std::sqrt of var on the same
range and weighting. Note the source line 97 calls var without its explicit
template argument T, which C++ cannot deduce there; this definition is the
translation of that line with T supplied, the evident intent. -/
noncomputable def std (xs : List ℚ) (w : weight) : ℝ :=
  Real.sqrt ((var xs w : ℚ) : ℝ)

/-- Vector form of std (stats.h lines 105-109): delegates to the range form. -/
noncomputable def stdVec (x : List ℚ) (w : weight) : ℝ :=
  std x w

/-- Signal form of std (stats.h lines 116-120): delegates to the range form. -/
noncomputable def stdSignal (x : Signal) (w : weight) : ℝ :=
  std x.samples w

/-- The default weighting argument, weight::sample, declared on every var and
std overload (stats.h lines 53, 70, 82, 95, 106, 117). -/
def defaultWeight : weight :=
  weight.sample

/-- A call of range var with the weighting argument omitted: the declared
default argument weight::sample is supplied. -/
def varDefault (xs : List ℚ) : ℚ :=
  var xs defaultWeight

/-- A call of vector var with the weighting argument omitted. -/
def varVecDefault (x : List ℚ) : ℚ :=
  varVec x defaultWeight

/-- A call of Signal var with the weighting argument omitted. -/
def varSignalDefault (x : Signal) : ℚ :=
  varSignal x defaultWeight

/-- A call of range std with the weighting argument omitted. -/
noncomputable def stdDefault (xs : List ℚ) : ℝ :=
  std xs defaultWeight

/-- A call of vector std with the weighting argument omitted. -/
noncomputable def stdVecDefault (x : List ℚ) : ℝ :=
  stdVec x defaultWeight

/-- A call of Signal std with the weighting argument omitted. -/
noncomputable def stdSignalDefault (x : Signal) : ℝ :=
  stdSignal x defaultWeight

/-- The divisor var uses, read off the two return branches of stats.h lines
57-61: std::distance(begin, end) - 1 for sample weighting, and
std::distance(begin, end) for population weighting, as a signed integer. -/
def varDivisor (xs : List ℚ) (w : weight) : ℤ :=
  if w = weight.sample then
    (xs.length : ℤ) - 1
  else
    (xs.length : ℤ)

/-- The second-pass accumulation of var in isolation: the fold that sums the
squared deviations from the mean. -/
def sumSqDev (xs : List ℚ) : ℚ :=
  xs.foldl (fun acc x => acc + (x - mean xs) ^ 2) 0

/-- A left fold that adds f of each element equals the initial value plus the
sum of the mapped list. -/
theorem foldl_add_eq (f : ℚ → ℚ) :
    ∀ (xs : List ℚ) (a : ℚ),
      xs.foldl (fun acc x => acc + f x) a = a + (xs.map f).sum := by
  intro xs
  induction xs with
  | nil => intro a; simp
  | cons x t ih =>
    intro a
    simp only [List.foldl_cons, List.map_cons, List.sum_cons]
    rw [ih (a + f x)]
    ring

/-- The mean is the list sum divided by the length. -/
theorem mean_eq_sum_div (xs : List ℚ) :
    mean xs = xs.sum / (xs.length : ℚ) := by
  unfold mean
  rw [show (fun acc x => acc + x) = (fun acc x => acc + (fun y => y) x) from rfl,
    foldl_add_eq (fun y => y) xs 0]
  simp

/-- The second pass of var sums the squared deviations of the list. -/
theorem sumSqDev_eq_sum_map (xs : List ℚ) :
    sumSqDev xs = (xs.map (fun x => (x - mean xs) ^ 2)).sum := by
  unfold sumSqDev
  rw [foldl_add_eq (fun x => (x - mean xs) ^ 2) xs 0, zero_add]

/-- var is the second-pass sum divided by the branch divisor. -/
theorem var_eq_sumSqDev_div (xs : List ℚ) (w : weight) :
    var xs w = sumSqDev xs / ((varDivisor xs w : ℤ) : ℚ) := by
  cases w <;> simp [var, sumSqDev, varDivisor]

/-- The sum of squared deviations is nonnegative. -/
theorem sumSqDev_nonneg (xs : List ℚ) : 0 ≤ sumSqDev xs := by
  rw [sumSqDev_eq_sum_map]
  apply List.sum_nonneg
  intro y hy
  obtain ⟨x, _, hx⟩ := List.mem_map.mp hy
  rw [hx.symm]
  positivity

/-- Under the size precondition of the chosen weighting, the divisor is
positive and var is nonnegative. -/
theorem var_nonneg_of_size (xs : List ℚ) (w : weight)
    (h : (w = weight.sample → 2 ≤ xs.length) ∧
         (w = weight.population → 1 ≤ xs.length)) :
    0 ≤ var xs w := by
  rw [var_eq_sumSqDev_div]
  apply div_nonneg (sumSqDev_nonneg xs)
  cases w with
  | sample =>
    have h2 := h.1 rfl
    simp only [varDivisor, if_pos rfl]
    push_cast
    have : (2 : ℚ) ≤ (xs.length : ℚ) := by exact_mod_cast h2
    linarith
  | population =>
    have hd : varDivisor xs weight.population = (xs.length : ℤ) := by
      simp [varDivisor]
    rw [hd]
    positivity

/-- Claim C1: for every non-empty sequence, mean returns the sum of the
elements divided by the element count, in each of its three call shapes. -/
theorem mean_is_sum_div_count (xs : List ℚ) (h : xs ≠ []) :
    mean xs = xs.sum / (xs.length : ℚ) ∧
    meanVec xs = xs.sum / (xs.length : ℚ) ∧
    meanSignal (Signal.mk xs) = xs.sum / (xs.length : ℚ) :=
  ⟨mean_eq_sum_div xs, mean_eq_sum_div xs, mean_eq_sum_div xs⟩

/-- Witness for claim C1 at the concrete sequence [1,2,3,4,5]. -/
theorem mean_is_sum_div_count_witness :
    [(1 : ℚ), 2, 3, 4, 5] ≠ [] ∧
    (mean [(1 : ℚ), 2, 3, 4, 5] = List.sum [(1 : ℚ), 2, 3, 4, 5] /
        ((List.length [(1 : ℚ), 2, 3, 4, 5] : ℕ) : ℚ) ∧
     meanVec [(1 : ℚ), 2, 3, 4, 5] = List.sum [(1 : ℚ), 2, 3, 4, 5] /
        ((List.length [(1 : ℚ), 2, 3, 4, 5] : ℕ) : ℚ) ∧
     meanSignal (Signal.mk [(1 : ℚ), 2, 3, 4, 5]) = List.sum [(1 : ℚ), 2, 3, 4, 5] /
        ((List.length [(1 : ℚ), 2, 3, 4, 5] : ℕ) : ℚ)) :=
  ⟨by decide, mean_is_sum_div_count [(1 : ℚ), 2, 3, 4, 5] (by decide)⟩

/-- Claim C2: for every sequence with at least 2 elements, var with sample
weighting returns the sum of squared deviations from the mean divided by
N - 1, computed by the two-pass scheme (mean first, then squared
deviations, as the definition of var mirrors). -/
theorem var_sample_two_pass (xs : List ℚ) (h : 2 ≤ xs.length) :
    var xs weight.sample =
      (xs.map (fun x => (x - mean xs) ^ 2)).sum / ((xs.length : ℚ) - 1) := by
  rw [var_eq_sumSqDev_div, sumSqDev_eq_sum_map]
  have hd : ((varDivisor xs weight.sample : ℤ) : ℚ) = (xs.length : ℚ) - 1 := by
    simp [varDivisor]
  rw [hd]

/-- Witness for claim C2 at the concrete sequence [1,2,3,4,5]. -/
theorem var_sample_two_pass_witness :
    2 ≤ List.length [(1 : ℚ), 2, 3, 4, 5] ∧
    var [(1 : ℚ), 2, 3, 4, 5] weight.sample = 5 / 2 := by
  refine ⟨by decide, ?_⟩
  rw [var_sample_two_pass [(1 : ℚ), 2, 3, 4, 5] (by decide)]
  norm_num [mean_eq_sum_div, List.sum_cons, List.map_cons, List.sum_nil, List.map_nil]

/-- Claim C3: for every sequence with at least 1 element, var with population
weighting returns the sum of squared deviations from the mean divided by N. -/
theorem var_population_two_pass (xs : List ℚ) (h : 1 ≤ xs.length) :
    var xs weight.population =
      (xs.map (fun x => (x - mean xs) ^ 2)).sum / (xs.length : ℚ) := by
  rw [var_eq_sumSqDev_div, sumSqDev_eq_sum_map]
  have hd : ((varDivisor xs weight.population : ℤ) : ℚ) = (xs.length : ℚ) := by
    simp [varDivisor]
  rw [hd]

/-- Witness for claim C3 at the concrete sequence [1,2,3,4,5]. -/
theorem var_population_two_pass_witness :
    1 ≤ List.length [(1 : ℚ), 2, 3, 4, 5] ∧
    var [(1 : ℚ), 2, 3, 4, 5] weight.population = 2 := by
  refine ⟨by decide, ?_⟩
  rw [var_population_two_pass [(1 : ℚ), 2, 3, 4, 5] (by decide)]
  norm_num [mean_eq_sum_div, List.sum_cons, List.map_cons, List.sum_nil, List.map_nil]

/-- Claim C5: for every sequence and weighting, the vector form and the
Signal form of mean, var and std return the same value as the range form on
the same data: each container form delegates to the range form. -/
theorem call_shapes_agree (xs : List ℚ) (w : weight) :
    meanVec xs = mean xs ∧
    meanSignal (Signal.mk xs) = mean xs ∧
    varVec xs w = var xs w ∧
    varSignal (Signal.mk xs) w = var xs w ∧
    stdVec xs w = std xs w ∧
    stdSignal (Signal.mk xs) w = std xs w :=
  ⟨rfl, rfl, rfl, rfl, rfl, rfl⟩

/-- Claim C7: for every single-element sequence, var and std with population
weighting return 0, while the sample branch of var divides by the divisor
N - 1 = 0. -/
theorem single_element_behavior (x : ℚ) :
    var [x] weight.population = 0 ∧
    std [x] weight.population = 0 ∧
    varDivisor [x] weight.sample = 0 ∧
    var [x] weight.sample = sumSqDev [x] / ((varDivisor [x] weight.sample : ℤ) : ℚ) := by
  have hm : mean [x] = x := by
    simp [mean]
  have hs : sumSqDev [x] = 0 := by
    simp [sumSqDev, hm]
  have hv : var [x] weight.population = 0 := by
    rw [var_eq_sumSqDev_div, hs]
    simp
  refine ⟨hv, ?_, by simp [varDivisor], var_eq_sumSqDev_div [x] weight.sample⟩
  unfold std
  rw [hv]
  simp

/-- Claim C9: with the weighting argument omitted, every call shape of var
and std uses the declared default weight::sample. -/
theorem omitted_weighting_is_sample (xs : List ℚ) :
    defaultWeight = weight.sample ∧
    varDefault xs = var xs weight.sample ∧
    varVecDefault xs = varVec xs weight.sample ∧
    varSignalDefault (Signal.mk xs) = varSignal (Signal.mk xs) weight.sample ∧
    stdDefault xs = std xs weight.sample ∧
    stdVecDefault xs = stdVec xs weight.sample ∧
    stdSignalDefault (Signal.mk xs) = stdSignal (Signal.mk xs) weight.sample :=
  ⟨rfl, rfl, rfl, rfl, rfl, rfl, rfl⟩

/-- Claim C4: under the size precondition of the chosen weighting, std is the
nonnegative square root of var — std is nonnegative and its square is var —
and both container call shapes return the value of the range form. The
statement is about the translation of stats.h line 97 with the template
argument T supplied; as written, that line cannot deduce T. -/
theorem std_is_sqrt_of_variance (xs : List ℚ) (w : weight)
    (h : (w = weight.sample → 2 ≤ xs.length) ∧
         (w = weight.population → 1 ≤ xs.length)) :
    0 ≤ std xs w ∧
    std xs w ^ 2 = ((var xs w : ℚ) : ℝ) ∧
    stdVec xs w = std xs w ∧
    stdSignal (Signal.mk xs) w = std xs w := by
  refine ⟨Real.sqrt_nonneg _, ?_, rfl, rfl⟩
  unfold std
  rw [Real.sq_sqrt]
  exact_mod_cast var_nonneg_of_size xs w h

/-- Witness for claim C4 at the concrete sequence [1,2,3,4,5] with sample
weighting. -/
theorem std_is_sqrt_of_variance_witness :
    ((weight.sample = weight.sample → 2 ≤ List.length [(1 : ℚ), 2, 3, 4, 5]) ∧
     (weight.sample = weight.population → 1 ≤ List.length [(1 : ℚ), 2, 3, 4, 5])) ∧
    (0 ≤ std [(1 : ℚ), 2, 3, 4, 5] weight.sample ∧
     std [(1 : ℚ), 2, 3, 4, 5] weight.sample ^ 2 =
       ((var [(1 : ℚ), 2, 3, 4, 5] weight.sample : ℚ) : ℝ) ∧
     stdVec [(1 : ℚ), 2, 3, 4, 5] weight.sample = std [(1 : ℚ), 2, 3, 4, 5] weight.sample ∧
     stdSignal (Signal.mk [(1 : ℚ), 2, 3, 4, 5]) weight.sample =
       std [(1 : ℚ), 2, 3, 4, 5] weight.sample) :=
  ⟨by decide, std_is_sqrt_of_variance [(1 : ℚ), 2, 3, 4, 5] weight.sample (by decide)⟩

/-- Claim C6: input meeting the size precondition of the operation called
reaches no division by zero and yields the mathematical definition: for
non-empty input the count mean divides by is nonzero and mean is sum over
count; for input of length at least 2 the sample divisor of var is nonzero
and var is the two-pass sum over N - 1, and std with sample weighting is the
nonnegative square root of that var; for non-empty input the population
divisor is nonzero, var is the two-pass sum over N, and std with population
weighting is the nonnegative square root of that var. Every value of the
rational-arithmetic model is finite. The std conjuncts are about the
translation of stats.h line 97 with the template argument T supplied: as
written, that line cannot deduce T, so a well-sized standardDeviation call
does not in fact succeed. -/
theorem valid_sized_input_succeeds (xs : List ℚ) :
    (xs ≠ [] → ((xs.length : ℚ) ≠ 0 ∧ mean xs = xs.sum / (xs.length : ℚ))) ∧
    (2 ≤ xs.length → (((varDivisor xs weight.sample : ℤ) : ℚ) ≠ 0 ∧
      var xs weight.sample =
        (xs.map (fun x => (x - mean xs) ^ 2)).sum / ((xs.length : ℚ) - 1))) ∧
    (1 ≤ xs.length → (((varDivisor xs weight.population : ℤ) : ℚ) ≠ 0 ∧
      var xs weight.population =
        (xs.map (fun x => (x - mean xs) ^ 2)).sum / (xs.length : ℚ))) ∧
    (2 ≤ xs.length → (0 ≤ std xs weight.sample ∧
      std xs weight.sample ^ 2 = ((var xs weight.sample : ℚ) : ℝ))) ∧
    (1 ≤ xs.length → (0 ≤ std xs weight.population ∧
      std xs weight.population ^ 2 = ((var xs weight.population : ℚ) : ℝ))) := by
  refine ⟨fun h => ⟨?_, mean_eq_sum_div xs⟩, fun h => ⟨?_, ?_⟩, fun h => ⟨?_, ?_⟩,
    fun h => ⟨Real.sqrt_nonneg _, ?_⟩, fun h => ⟨Real.sqrt_nonneg _, ?_⟩⟩
  · have : xs.length ≠ 0 := by
      simpa [List.length_eq_zero] using h
    exact_mod_cast this
  · have hd : ((varDivisor xs weight.sample : ℤ) : ℚ) = (xs.length : ℚ) - 1 := by
      simp [varDivisor]
    rw [hd]
    have : (2 : ℚ) ≤ (xs.length : ℚ) := by exact_mod_cast h
    intro hc
    linarith [hc]
  · rw [var_eq_sumSqDev_div, sumSqDev_eq_sum_map]
    have hd : ((varDivisor xs weight.sample : ℤ) : ℚ) = (xs.length : ℚ) - 1 := by
      simp [varDivisor]
    rw [hd]
  · have hd : ((varDivisor xs weight.population : ℤ) : ℚ) = (xs.length : ℚ) := by
      simp [varDivisor]
    rw [hd]
    have : (1 : ℚ) ≤ (xs.length : ℚ) := by exact_mod_cast h
    intro hc
    linarith [hc]
  · rw [var_eq_sumSqDev_div, sumSqDev_eq_sum_map]
    have hd : ((varDivisor xs weight.population : ℤ) : ℚ) = (xs.length : ℚ) := by
      simp [varDivisor]
    rw [hd]
  · unfold std
    rw [Real.sq_sqrt]
    exact_mod_cast var_nonneg_of_size xs weight.sample ⟨fun _ => h, fun _ => by omega⟩
  · unfold std
    rw [Real.sq_sqrt]
    exact_mod_cast var_nonneg_of_size xs weight.population
      ⟨fun hc => weight.noConfusion hc, fun _ => h⟩

/-- Witness for claim C6 at the concrete sequence [1,2,3,4,5]. -/
theorem valid_sized_input_succeeds_witness :
    ((List.length [(1 : ℚ), 2, 3, 4, 5] : ℚ) ≠ 0 ∧ mean [(1 : ℚ), 2, 3, 4, 5] = 3) ∧
    (((varDivisor [(1 : ℚ), 2, 3, 4, 5] weight.sample : ℤ) : ℚ) ≠ 0 ∧
      var [(1 : ℚ), 2, 3, 4, 5] weight.sample = 5 / 2) ∧
    (((varDivisor [(1 : ℚ), 2, 3, 4, 5] weight.population : ℤ) : ℚ) ≠ 0 ∧
      var [(1 : ℚ), 2, 3, 4, 5] weight.population = 2) ∧
    (0 ≤ std [(1 : ℚ), 2, 3, 4, 5] weight.sample ∧
      std [(1 : ℚ), 2, 3, 4, 5] weight.sample ^ 2 =
        ((var [(1 : ℚ), 2, 3, 4, 5] weight.sample : ℚ) : ℝ)) ∧
    (0 ≤ std [(1 : ℚ), 2, 3, 4, 5] weight.population ∧
      std [(1 : ℚ), 2, 3, 4, 5] weight.population ^ 2 =
        ((var [(1 : ℚ), 2, 3, 4, 5] weight.population : ℚ) : ℝ)) := by
  obtain ⟨h1, h2, h3, h4, h5⟩ := valid_sized_input_succeeds [(1 : ℚ), 2, 3, 4, 5]
  have g1 := h1 (by decide)
  have g2 := h2 (by decide)
  have g3 := h3 (by decide)
  refine ⟨⟨g1.1, g1.2.trans ?_⟩, ⟨g2.1, g2.2.trans ?_⟩, ⟨g3.1, g3.2.trans ?_⟩,
    h4 (by decide), h5 (by decide)⟩
  · norm_num [List.sum_cons, List.sum_nil]
  · norm_num [mean_eq_sum_div, List.sum_cons, List.sum_nil, List.map_cons, List.map_nil]
  · norm_num [mean_eq_sum_div, List.sum_cons, List.sum_nil, List.map_cons, List.map_nil]

/-- Claim C8: the documented values at the sequence [1,2,3,4,5]: mean 3,
sample variance 5/2, population variance 2, sample standard deviation the
square root of 5/2 (between 1.5811 and 1.5812), population standard
deviation the square root of 2 (between 1.4142 and 1.4143). -/
theorem example_sequence_values :
    mean [(1 : ℚ), 2, 3, 4, 5] = 3 ∧
    var [(1 : ℚ), 2, 3, 4, 5] weight.sample = 5 / 2 ∧
    var [(1 : ℚ), 2, 3, 4, 5] weight.population = 2 ∧
    std [(1 : ℚ), 2, 3, 4, 5] weight.sample = Real.sqrt (5 / 2) ∧
    (1.5811 : ℝ) < std [(1 : ℚ), 2, 3, 4, 5] weight.sample ∧
    std [(1 : ℚ), 2, 3, 4, 5] weight.sample < 1.5812 ∧
    std [(1 : ℚ), 2, 3, 4, 5] weight.population = Real.sqrt 2 ∧
    (1.4142 : ℝ) < std [(1 : ℚ), 2, 3, 4, 5] weight.population ∧
    std [(1 : ℚ), 2, 3, 4, 5] weight.population < 1.4143 := by
  have hm : mean [(1 : ℚ), 2, 3, 4, 5] = 3 := by
    rw [mean_eq_sum_div]
    norm_num [List.sum_cons, List.sum_nil]
  have hvs : var [(1 : ℚ), 2, 3, 4, 5] weight.sample = 5 / 2 := by
    rw [var_eq_sumSqDev_div, sumSqDev_eq_sum_map]
    norm_num [varDivisor, hm, List.map_cons, List.map_nil, List.sum_cons, List.sum_nil]
  have hvp : var [(1 : ℚ), 2, 3, 4, 5] weight.population = 2 := by
    rw [var_eq_sumSqDev_div, sumSqDev_eq_sum_map]
    have hd : ((varDivisor [(1 : ℚ), 2, 3, 4, 5] weight.population : ℤ) : ℚ) = 5 := by
      simp [varDivisor]
    rw [hd]
    norm_num [hm, List.map_cons, List.map_nil, List.sum_cons, List.sum_nil]
  have hss : std [(1 : ℚ), 2, 3, 4, 5] weight.sample = Real.sqrt (5 / 2) := by
    unfold std
    rw [hvs]
    norm_num
  have hsp : std [(1 : ℚ), 2, 3, 4, 5] weight.population = Real.sqrt 2 := by
    unfold std
    rw [hvp]
    norm_num
  refine ⟨hm, hvs, hvp, hss, ?_, ?_, hsp, ?_, ?_⟩
  · rw [hss]
    exact (Real.lt_sqrt (by norm_num)).mpr (by norm_num)
  · rw [hss]
    exact (Real.sqrt_lt' (by norm_num)).mpr (by norm_num)
  · rw [hsp]
    exact (Real.lt_sqrt (by norm_num)).mpr (by norm_num)
  · rw [hsp]
    exact (Real.sqrt_lt' (by norm_num)).mpr (by norm_num)

/-- Claim C10: under the size precondition of the chosen weighting, var is
nonnegative, and std — the square root of var — is nonnegative as well. -/
theorem variance_and_std_nonneg (xs : List ℚ) (w : weight)
    (h : (w = weight.sample → 2 ≤ xs.length) ∧
         (w = weight.population → 1 ≤ xs.length)) :
    0 ≤ var xs w ∧ 0 ≤ std xs w :=
  ⟨var_nonneg_of_size xs w h, Real.sqrt_nonneg _⟩

/-- Witness for claim C10 at the concrete sequence [4,7] with sample
weighting. -/
theorem variance_and_std_nonneg_witness :
    ((weight.sample = weight.sample → 2 ≤ List.length [(4 : ℚ), 7]) ∧
     (weight.sample = weight.population → 1 ≤ List.length [(4 : ℚ), 7])) ∧
    (0 ≤ var [(4 : ℚ), 7] weight.sample ∧ 0 ≤ std [(4 : ℚ), 7] weight.sample) :=
  ⟨by decide, variance_and_std_nonneg [(4 : ℚ), 7] weight.sample (by decide)⟩

end dsp
